import Mathlib

/-!
Shallow embedding of the crypto-price API service (`src/api/app.js`).

Modelling conventions:
* JS `Map` objects and plain objects used as string-keyed dictionaries are
  association lists (`List (String × α)`) with JS `Map.set` semantics
  (`aset` replaces the first binding in place, otherwise appends).
* Times are `Nat` milliseconds.  The JS comparison `time > now - WINDOW`
  (where `now - WINDOW` may be negative) is written `now < time + WINDOW`,
  which agrees with the JS integer comparison for all non-negative times.
  Likewise `Date.now() - cached.timestamp < CACHE_DURATION` truncates at 0
  in `Nat`, which gives the same verdict as the JS signed comparison.
* Upstream HTTP calls are an oracle (`Upstream`): a function giving the
  outcome of the simple/price call for an ids list and of the per-id
  coin-info call.  Axios failures are `AxiosErr`; prices are `Int`
  (the code only passes the upstream `usd` value through verbatim).
-/

/-- Association-list lookup (first binding wins), i.e. JS `Map.get` /
object property read. -/
def alookup {α : Type} : List (String × α) → String → Option α
  | [], _ => none
  | (k', v) :: rest, k => if k' = k then some v else alookup rest k

/-- Association-list update with JS `Map.set` / property-assignment
semantics: replace the first binding of the key in place, else append. -/
def aset {α : Type} : List (String × α) → String → α → List (String × α)
  | [], k, v => [(k, v)]
  | (k', v') :: rest, k, v =>
    if k' = k then (k, v) :: rest else (k', v') :: aset rest k v

/-- `CACHE_DURATION = 5 * 60 * 1000` (5 minutes in milliseconds). -/
def CACHE_DURATION : Nat := 5 * 60 * 1000

/-- `RATE_LIMIT_WINDOW = 60 * 1000` (1 minute). -/
def RATE_LIMIT_WINDOW : Nat := 60 * 1000

/-- `MAX_REQUESTS_PER_MINUTE = 50`. -/
def MAX_REQUESTS_PER_MINUTE : Nat := 50

/-- The value part of one `{id: {usd: number}}` entry of the upstream
simple/price response. -/
structure SimpleEntry where
  usd : Int
  deriving DecidableEq, Repr

/-- The `{name, symbol}` part of the upstream per-coin info response. -/
structure CoinInfo where
  name : String
  symbol : String
  deriving DecidableEq, Repr

/-- The record served for one resolved identifier: `{name, symbol, price}`. -/
structure PriceRecord where
  name : String
  symbol : String
  price : Int
  deriving DecidableEq, Repr

/-- An axios-level failure of an outbound call: an HTTP error status,
an abort (`error.code === 'ECONNABORTED'`), or any other transport
failure carrying its raw message. -/
inductive AxiosErr where
  | status (code : Nat)
  | aborted
  | netOther (msg : String)
  deriving DecidableEq, Repr

/-- The outcomes `getCryptocurrencyData` can throw, identified by the
`error.message` strings the `/price/:id` handler later matches on. -/
inductive FetchErr where
  | notFound
  | rateLimited
  | timeout
  | other (e : AxiosErr)
  deriving DecidableEq, Repr

/-- The `catch` block of `getCryptocurrencyData` (app.js:95-111):
`error.response.status === 404` → "Cryptocurrency not found",
`429` → "Rate limit exceeded. Please try again later.",
`error.code === 'ECONNABORTED'` → "Request timeout",
anything else is rethrown as-is. -/
def classifyErr : AxiosErr → FetchErr
  | .status c => if c = 404 then .notFound
      else if c = 429 then .rateLimited
      else .other (.status c)
  | .aborted => .timeout
  | .netOther m => .other (.netOther m)

/-- Oracle for the upstream provider: `priceOf ids` is the outcome of the
simple/price call for a (comma-joined) ids list, `infoOf id` the outcome
of the `/coins/{id}` info call. -/
structure Upstream where
  priceOf : List String → Except AxiosErr (List (String × SimpleEntry))
  infoOf : String → Except AxiosErr CoinInfo

/-- `getCryptocurrencyData(id)` (app.js:55-112): price call for the single
id; a missing id in the price response throws "Cryptocurrency not found"
(rethrown unchanged by the catch); then the info call, whose failure is
classified and thrown; on success the record is built with the symbol
uppercased. -/
def getCryptocurrencyData (u : Upstream) (id : String) :
    Except FetchErr PriceRecord :=
  match u.priceOf [id] with
  | .error e => .error (classifyErr e)
  | .ok resp =>
    match alookup resp id with
    | none => .error .notFound
    | some entry =>
      match u.infoOf id with
      | .error e => .error (classifyErr e)
      | .ok info => .ok ⟨info.name, info.symbol.toUpper, entry.usd⟩

/-- One element of `infoResults` in `getMultipleCryptocurrencyData`
(app.js:136-164): the per-id info call with fallback `{id, name: id,
symbol: id.toUpperCase()}` when that call fails. -/
structure InfoResult where
  id : String
  name : String
  symbol : String
  deriving DecidableEq, Repr

/-- The per-id info fetch of the bulk path, with its catch-and-fallback. -/
def fetchInfo (u : Upstream) (id : String) : InfoResult :=
  match u.infoOf id with
  | .ok info => ⟨id, info.name, info.symbol.toUpper⟩
  | .error _ => ⟨id, id, id.toUpper⟩

/-- One iteration of the result-combining loop of
`getMultipleCryptocurrencyData` (app.js:168-176): if the info result's id
is present in the price response, set `result[id] = {name, symbol,
price}`, else leave the accumulator alone. -/
def combineStep (resp : List (String × SimpleEntry))
    (acc : List (String × PriceRecord)) (info : InfoResult) :
    List (String × PriceRecord) :=
  match alookup resp info.id with
  | some entry => aset acc info.id ⟨info.name, info.symbol, entry.usd⟩
  | none => acc

/-- The result-combining loop of `getMultipleCryptocurrencyData`
(app.js:167-176), starting from the empty object. -/
def combineResults (resp : List (String × SimpleEntry))
    (infos : List InfoResult) : List (String × PriceRecord) :=
  infos.foldl (combineStep resp) []

/-- `getMultipleCryptocurrencyData(ids)` (app.js:115-183): one combined
price call for all ids (a failure is rethrown raw), per-id info calls
with fallback, then the combine loop; ids absent from the price response
are dropped. -/
def getMultipleCryptocurrencyData (u : Upstream) (ids : List String) :
    Except AxiosErr (List (String × PriceRecord)) :=
  match u.priceOf ids with
  | .error e => .error e
  | .ok resp => .ok (combineResults resp (ids.map (fetchInfo u)))

/-- One cache slot: `{data, timestamp}` as stored by `setCachedData`. -/
structure CacheEntry where
  data : PriceRecord
  timestamp : Nat
  deriving DecidableEq, Repr

/-- The in-memory cache `Map`. -/
abbrev Cache := List (String × CacheEntry)

/-- `getCachedData(id)` (app.js:186-192): return the stored record iff an
entry exists and `now - timestamp < CACHE_DURATION`; reading performs no
mutation, so the cache is returned unchanged alongside the value. -/
def getCachedData (cache : Cache) (now : Nat) (id : String) :
    Option PriceRecord × Cache :=
  match alookup cache id with
  | some c =>
    (if now - c.timestamp < CACHE_DURATION then some c.data else none, cache)
  | none => (none, cache)

/-- `setCachedData(id, data)` (app.js:195-200): unconditional overwrite
with the current timestamp. -/
def setCachedData (cache : Cache) (now : Nat) (id : String)
    (data : PriceRecord) : Cache :=
  aset cache id ⟨data, now⟩

/-- The per-client rate limiter `Map` (ip → array of request instants). -/
abbrev RateMap := List (String × List Nat)

/-- `checkRateLimit(ip)` (app.js:33-52): ensure an entry exists, keep only
timestamps with `time > now - RATE_LIMIT_WINDOW`, reject (without
writing) when already at `MAX_REQUESTS_PER_MINUTE`, else push `now` and
store the pruned list.  Returns the admission flag and the updated map. -/
def checkRateLimit (rl : RateMap) (now : Nat) (ip : String) :
    Bool × RateMap :=
  let rl1 := match alookup rl ip with
    | none => aset rl ip []
    | some _ => rl
  let requests := (alookup rl1 ip).getD []
  let recentRequests := requests.filter fun t => now < t + RATE_LIMIT_WINDOW
  if MAX_REQUESTS_PER_MINUTE ≤ recentRequests.length then (false, rl1)
  else (true, aset rl1 ip (recentRequests ++ [now]))

/-- A JSON response body: a single record (`/price/:id` success), a
mapping keyed by identifier (`/prices/:ids` success), or an error object
`{error, message}`. -/
inductive HttpBody where
  | record (r : PriceRecord)
  | table (m : List (String × PriceRecord))
  | errObj (error : String) (message : String)
  deriving DecidableEq, Repr

/-- An HTTP response: status code and JSON body. -/
structure HttpResp where
  status : Nat
  body : HttpBody
  deriving DecidableEq, Repr

/-- The process-wide mutable state: the cache and the rate limiter. -/
structure ServerState where
  cache : Cache
  rateLimiter : RateMap
  deriving DecidableEq, Repr

/-- The 429 response of the local limiter (app.js:210-213 and 271-274). -/
def localRejectResp : HttpResp :=
  ⟨429, .errObj "Rate limit exceeded" "Too many requests. Please try again later."⟩

/-- The catch block of `app.get('/price/:id')` (app.js:232-260), matching
on `error.message` and mapping every failure to a fixed `{error, message}`
object. -/
def errorResponse : FetchErr → HttpResp
  | .notFound =>
    ⟨404, .errObj "Cryptocurrency not found"
      "The specified cryptocurrency ID does not exist"⟩
  | .rateLimited =>
    ⟨429, .errObj "Rate limit exceeded"
      "API rate limit exceeded. Please try again later."⟩
  | .timeout =>
    ⟨408, .errObj "Request timeout" "Request took too long to complete"⟩
  | .other _ =>
    ⟨500, .errObj "Internal server error" "Failed to fetch cryptocurrency data"⟩

/-- `app.get('/price/:id')` (app.js:203-261): rate gate, cache lookup,
fetch on miss, cache write on success, error mapping on failure. -/
def handlePrice (u : Upstream) (s : ServerState) (now : Nat)
    (ip id : String) : HttpResp × ServerState :=
  match checkRateLimit s.rateLimiter now ip with
  | (false, rl') => (localRejectResp, ⟨s.cache, rl'⟩)
  | (true, rl') =>
    match (getCachedData s.cache now id).1 with
    | some d => (⟨200, .record d⟩, ⟨s.cache, rl'⟩)
    | none =>
      match getCryptocurrencyData u id with
      | .ok d => (⟨200, .record d⟩, ⟨setCachedData s.cache now id d, rl'⟩)
      | .error e => (errorResponse e, ⟨s.cache, rl'⟩)

/-- The partition loop of `app.get('/prices/:ids')` (app.js:280-290):
one pass over the ids, collecting fresh cache hits into `cachedResults`
and cache misses into `missingIds` (in order, duplicates kept). -/
def partitionCached (cache : Cache) (now : Nat) (coinIds : List String) :
    List (String × PriceRecord) × List String :=
  coinIds.foldl (fun acc id =>
    match (getCachedData cache now id).1 with
    | some c => (aset acc.1 id c, acc.2)
    | none => (acc.1, acc.2 ++ [id])) ([], [])

/-- JS object spread `{...a, ...b}` as it affects property lookup:
entries of `b` override / extend `a`. -/
def objMerge (a b : List (String × PriceRecord)) :
    List (String × PriceRecord) :=
  b.foldl (fun acc p => aset acc p.1 p.2) a

/-- `app.get('/prices/:ids')` (app.js:264-315) on the already-split id
list: rate gate, per-id cache partition, one bulk fetch for the missing
ids when non-empty, write-through of every fresh record, and the spread
merge of cached and fresh results.  The third component records the ids
list of each upstream bulk fetch issued. -/
def handlePricesList (u : Upstream) (s : ServerState) (now : Nat)
    (ip : String) (coinIds : List String) :
    HttpResp × ServerState × List (List String) :=
  match checkRateLimit s.rateLimiter now ip with
  | (false, rl') => (localRejectResp, ⟨s.cache, rl'⟩, [])
  | (true, rl') =>
    let part := partitionCached s.cache now coinIds
    if part.2.isEmpty then (⟨200, .table part.1⟩, ⟨s.cache, rl'⟩, [])
    else
      match getMultipleCryptocurrencyData u part.2 with
      | .error _ =>
        (⟨500, .errObj "Internal server error"
            "Failed to fetch cryptocurrency data"⟩,
          ⟨s.cache, rl'⟩, [part.2])
      | .ok fresh =>
        (⟨200, .table (objMerge part.1 fresh)⟩,
          ⟨fresh.foldl (fun c p => setCachedData c now p.1 p.2) s.cache, rl'⟩,
          [part.2])

/-- The endpoint split of `app.get('/prices/:ids')` at app.js:277:
`ids.split(',').map(id => id.trim())`. -/
def splitIds (ids : String) : List String :=
  (ids.splitOn ",").map String.trim

/-- An inbound request to one of the two rate-limited endpoints. -/
inductive Req where
  | single (ip : String) (id : String) (now : Nat)
  | bulk (ip : String) (coinIds : List String) (now : Nat)
  deriving Repr

/-- The client key of a request. -/
def Req.ip : Req → String
  | .single ip _ _ => ip
  | .bulk ip _ _ => ip

/-- The arrival instant of a request. -/
def Req.now : Req → Nat
  | .single _ _ now => now
  | .bulk _ _ now => now

/-- Serve one request through the matching endpoint handler. -/
def dispatch (u : Upstream) (s : ServerState) : Req → HttpResp × ServerState
  | .single ip id now => handlePrice u s now ip id
  | .bulk ip coinIds now =>
    ((handlePricesList u s now ip coinIds).1,
     (handlePricesList u s now ip coinIds).2.1)

/-- Serve a request trace; also return `(ip, now)` of every request that
was admitted by the local limiter (any response other than the limiter's
own 429 object), in trace order. -/
def runServer (u : Upstream) (s : ServerState) :
    List Req → ServerState × List (String × Nat)
  | [] => (s, [])
  | q :: rest =>
    let step := dispatch u s q
    let tail := runServer u step.2 rest
    (tail.1, if step.1 = localRejectResp then tail.2 else (q.ip, q.now) :: tail.2)

/-- The rate limiter's own view of a trace: run `checkRateLimit` for each
`(ip, now)` key and collect the admitted ones, in order. -/
def runLimiter (rl : RateMap) :
    List (String × Nat) → RateMap × List (String × Nat)
  | [] => (rl, [])
  | (ip, t) :: rest =>
    let step := checkRateLimit rl t ip
    let tail := runLimiter step.2 rest
    (tail.1, if step.1 then (ip, t) :: tail.2 else tail.2)

/-- The instants of a key trace are nondecreasing and all at least `m`. -/
def timesMono : Nat → List (String × Nat) → Prop
  | _, [] => True
  | m, (_, t) :: rest => m ≤ t ∧ timesMono t rest

/-- Concrete upstream oracle: the price call succeeds for "btc" but the
coin-info (metadata) call fails with a 500 status. -/
def uMetaFail : Upstream where
  priceOf := fun _ => .ok [("btc", ⟨100⟩)]
  infoOf := fun _ => .error (.status 500)

/-- Concrete upstream oracle reporting a present identifier with a zero
usd price, and working metadata. -/
def uZeroPrice : Upstream where
  priceOf := fun _ => .ok [("zed", ⟨0⟩)]
  infoOf := fun _ => .ok ⟨"Zed", "zed"⟩

/-- Concrete upstream oracle with a working price and metadata call for
"btc". -/
def uGood : Upstream where
  priceOf := fun _ => .ok [("btc", ⟨45000⟩)]
  infoOf := fun _ => .ok ⟨"Bitcoin", "btc"⟩

/-- Concrete upstream oracle whose calls all time out. -/
def uTimeout : Upstream where
  priceOf := fun _ => .error .aborted
  infoOf := fun _ => .error .aborted

/-- Concrete cache holding a fresh record for "btc" stored at time 0. -/
def c4Cache : Cache := [("btc", ⟨⟨"Bitcoin", "BTC", 45000⟩, 0⟩)]

/-- Concrete upstream oracle resolving "eth" only. -/
def uEth : Upstream where
  priceOf := fun _ => .ok [("eth", ⟨2800⟩)]
  infoOf := fun _ => .ok ⟨"Ethereum", "eth"⟩

/-- Concrete upstream oracle whose price response is always empty. -/
def uEmpty : Upstream where
  priceOf := fun _ => .ok []
  infoOf := fun _ => .ok ⟨"X", "x"⟩

/-- `t` lies in the trailing window `(T - RATE_LIMIT_WINDOW, T]` ending at
instant `T` (written additively, which is the JS integer semantics). -/
def inWindow (T t : Nat) : Bool :=
  decide (T < t + RATE_LIMIT_WINDOW) && decide (t ≤ T)

-- ### END OF DEFINITIONS ###

/-! Basic association-list lemmas. -/

theorem alookup_aset_self {α : Type} (m : List (String × α)) (k : String)
    (v : α) : alookup (aset m k v) k = some v := by
  induction m with
  | nil => simp [aset, alookup]
  | cons p rest ih =>
    by_cases h : p.1 = k
    · simp [aset, h, alookup]
    · simp [aset, h, alookup, ih]

theorem alookup_aset_ne {α : Type} (m : List (String × α)) (k k' : String)
    (v : α) (h : k ≠ k') : alookup (aset m k v) k' = alookup m k' := by
  induction m with
  | nil => simp [aset, alookup, h]
  | cons p rest ih =>
    by_cases hp : p.1 = k
    · simp [aset, hp, alookup, h]
    · simp [aset, hp, alookup, ih]

theorem alookup_isSome_of_mem_keys {α : Type} (m : List (String × α))
    (k : String) (h : k ∈ m.map Prod.fst) : (alookup m k).isSome := by
  induction m with
  | nil => simp at h
  | cons p rest ih =>
    by_cases hp : p.1 = k
    · simp [alookup, hp]
    · simp [alookup, hp]
      rcases List.mem_cons.1 h with h1 | h1
      · exact absurd h1.symm hp
      · exact ih h1

theorem mem_keys_of_alookup_isSome {α : Type} (m : List (String × α))
    (k : String) (h : (alookup m k).isSome) : k ∈ m.map Prod.fst := by
  induction m with
  | nil => simp [alookup] at h
  | cons p rest ih =>
    by_cases hp : p.1 = k
    · exact List.mem_map.2 ⟨p, List.mem_cons_self _ _, hp⟩
    · simp [alookup, hp] at h
      exact List.mem_cons_of_mem _ (ih h)

theorem keys_aset {α : Type} (m : List (String × α)) (k : String) (v : α) :
    (aset m k v).map Prod.fst =
      if k ∈ m.map Prod.fst then m.map Prod.fst else m.map Prod.fst ++ [k] := by
  induction m with
  | nil => simp [aset]
  | cons p rest ih =>
    by_cases hp : p.1 = k
    · simp [aset, hp]
    · have hne : ¬ k = p.1 := fun h => hp h.symm
      simp [aset, hp, ih, hne]
      by_cases hk : k ∈ rest.map Prod.fst <;> simp [hk, hne]

theorem keys_nodup_aset {α : Type} (m : List (String × α)) (k : String)
    (v : α) (h : (m.map Prod.fst).Nodup) :
    ((aset m k v).map Prod.fst).Nodup := by
  rw [keys_aset]
  by_cases hk : k ∈ m.map Prod.fst
  · simpa [hk] using h
  · simp only [hk, if_false]
    refine List.Nodup.append h (List.nodup_singleton k) ?_
    intro a ha hb
    simp only [List.mem_singleton] at hb
    exact hk (hb ▸ ha)

/-! Characterization of `checkRateLimit`. -/

/-- The pruned list `recentRequests` computed by `checkRateLimit`,
expressed over the original map (the ensure-entry step does not change
the list the key denotes). -/
def recentOf (rl : RateMap) (now : Nat) (ip : String) : List Nat :=
  ((alookup rl ip).getD []).filter fun t => now < t + RATE_LIMIT_WINDOW

theorem checkRateLimit_flag (rl : RateMap) (now : Nat) (ip : String) :
    (checkRateLimit rl now ip).1 =
      decide ((recentOf rl now ip).length < MAX_REQUESTS_PER_MINUTE) := by
  unfold checkRateLimit recentOf
  cases h1 : alookup rl ip with
  | none =>
    simp [h1, MAX_REQUESTS_PER_MINUTE, alookup_aset_self]
  | some l =>
    simp only [h1, Option.getD]
    by_cases h2 : MAX_REQUESTS_PER_MINUTE ≤ (List.filter (fun t =>
        decide (now < t + RATE_LIMIT_WINDOW)) l).length
    · simp [h2, Nat.not_lt.2 h2]
    · simp [h2, Nat.lt_of_not_le h2]

theorem checkRateLimit_false_state (rl : RateMap) (now : Nat) (ip : String)
    (h : (checkRateLimit rl now ip).1 = false) :
    (checkRateLimit rl now ip).2 = rl := by
  have hflag := checkRateLimit_flag rl now ip
  rw [h] at hflag
  have hge : MAX_REQUESTS_PER_MINUTE ≤ (recentOf rl now ip).length :=
    Nat.le_of_not_lt (by simpa using hflag.symm)
  unfold checkRateLimit
  cases h1 : alookup rl ip with
  | none =>
    exfalso
    have : recentOf rl now ip = [] := by simp [recentOf, h1]
    rw [this] at hge
    simp [MAX_REQUESTS_PER_MINUTE] at hge
  | some l =>
    have : recentOf rl now ip =
        l.filter fun t => now < t + RATE_LIMIT_WINDOW := by
      simp [recentOf, h1]
    simp only [h1, Option.getD]
    rw [this] at hge
    simp [hge]

theorem checkRateLimit_true_lookup (rl : RateMap) (now : Nat) (ip : String)
    (h : (checkRateLimit rl now ip).1 = true) :
    alookup (checkRateLimit rl now ip).2 ip =
      some (recentOf rl now ip ++ [now]) := by
  have hflag := checkRateLimit_flag rl now ip
  rw [h] at hflag
  have hlt : (recentOf rl now ip).length < MAX_REQUESTS_PER_MINUTE := by
    simpa using hflag.symm
  unfold checkRateLimit
  cases h1 : alookup rl ip with
  | none =>
    have hrec : recentOf rl now ip = [] := by simp [recentOf, h1]
    rw [hrec]
    simp [h1, MAX_REQUESTS_PER_MINUTE, alookup_aset_self]
  | some l =>
    have hrec : recentOf rl now ip =
        l.filter fun t => now < t + RATE_LIMIT_WINDOW := by
      simp [recentOf, h1]
    simp only [h1, Option.getD]
    rw [hrec] at hlt
    simp [Nat.not_le.2 hlt, alookup_aset_self, hrec]

theorem checkRateLimit_lookup_ne (rl : RateMap) (now : Nat) (ip ip' : String)
    (h : ip ≠ ip') :
    alookup (checkRateLimit rl now ip).2 ip' = alookup rl ip' := by
  unfold checkRateLimit
  cases h1 : alookup rl ip with
  | none =>
    simp [h1, MAX_REQUESTS_PER_MINUTE, alookup_aset_self,
      alookup_aset_ne _ _ _ _ h]
  | some l =>
    simp only [h1, Option.getD]
    by_cases h2 : MAX_REQUESTS_PER_MINUTE ≤ (List.filter (fun t =>
        decide (now < t + RATE_LIMIT_WINDOW)) l).length
    · simp [h2]
    · simp [h2, alookup_aset_ne _ _ _ _ h]

/-- C2: for every client key and current time, `checkRateLimit` first
discards the recorded timestamps outside the continuous window boundary
`now - WINDOW_DURATION` (`recentOf` is that pruned list); if the remaining
count is strictly below `MAX_REQUESTS_PER_WINDOW` it appends `now` and
returns true, otherwise it returns false without recording anything; and a
request arriving more than `WINDOW_DURATION` after every stored prior
request is always admitted. -/
theorem c2_rate_limiter_sliding_window (rl : RateMap) (now : Nat)
    (ip : String) :
    ((recentOf rl now ip).length < MAX_REQUESTS_PER_MINUTE →
      (checkRateLimit rl now ip).1 = true ∧
      alookup (checkRateLimit rl now ip).2 ip =
        some (recentOf rl now ip ++ [now]))
    ∧ (MAX_REQUESTS_PER_MINUTE ≤ (recentOf rl now ip).length →
      checkRateLimit rl now ip = (false, rl))
    ∧ ((∀ t ∈ (alookup rl ip).getD [], t + RATE_LIMIT_WINDOW < now) →
      (checkRateLimit rl now ip).1 = true) := by
  refine ⟨?_, ?_, ?_⟩
  · intro h
    have hflag : (checkRateLimit rl now ip).1 = true := by
      rw [checkRateLimit_flag]; simpa using h
    exact ⟨hflag, checkRateLimit_true_lookup rl now ip hflag⟩
  · intro h
    have hflag : (checkRateLimit rl now ip).1 = false := by
      rw [checkRateLimit_flag]; simpa using Nat.not_lt.2 h
    have hstate := checkRateLimit_false_state rl now ip hflag
    calc checkRateLimit rl now ip
        = ((checkRateLimit rl now ip).1, (checkRateLimit rl now ip).2) := rfl
      _ = (false, rl) := by rw [hflag, hstate]
  · intro h
    have hrec : recentOf rl now ip = [] := by
      unfold recentOf
      rw [List.filter_eq_nil_iff]
      intro t ht
      have ht2 := h t ht
      simp only [decide_eq_true_eq]
      omega
    rw [checkRateLimit_flag, hrec]
    simp [MAX_REQUESTS_PER_MINUTE]

/-- Witness for C2 at a concrete input: one prior in-window timestamp,
admission appends the new instant to the pruned list. -/
theorem c2_rate_limiter_sliding_window_witness :
    (recentOf [("a", [5])] 10 "a").length < MAX_REQUESTS_PER_MINUTE ∧
    (checkRateLimit [("a", [5])] 10 "a").1 = true ∧
    alookup (checkRateLimit [("a", [5])] 10 "a").2 "a" = some [5, 10] := by
  refine ⟨by decide, ?_, ?_⟩
  · exact ((c2_rate_limiter_sliding_window [("a", [5])] 10 "a").1
      (by decide)).1
  · have h := ((c2_rate_limiter_sliding_window [("a", [5])] 10 "a").1
      (by decide)).2
    rw [h]; decide

/-- C7: after every successful admission the stored window for the key
holds at most `MAX_REQUESTS_PER_WINDOW` timestamps, all inside the
trailing `WINDOW_DURATION`; and admission is rejected whenever the
in-window count is already at the limit. -/
theorem c7_rate_window_cap (rl : RateMap) (now : Nat) (ip : String) :
    ((checkRateLimit rl now ip).1 = true →
      ∃ l, alookup (checkRateLimit rl now ip).2 ip = some l ∧
        l.length ≤ MAX_REQUESTS_PER_MINUTE ∧
        ∀ t ∈ l, now < t + RATE_LIMIT_WINDOW)
    ∧ (MAX_REQUESTS_PER_MINUTE ≤ (recentOf rl now ip).length →
      (checkRateLimit rl now ip).1 = false) := by
  constructor
  · intro h
    refine ⟨recentOf rl now ip ++ [now],
      checkRateLimit_true_lookup rl now ip h, ?_, ?_⟩
    · have hflag := checkRateLimit_flag rl now ip
      rw [h] at hflag
      have hlt : (recentOf rl now ip).length < MAX_REQUESTS_PER_MINUTE := by
        simpa using hflag.symm
      simpa using hlt
    · intro t ht
      rcases List.mem_append.1 ht with h1 | h1
      · have h2 : t ∈ (alookup rl ip).getD [] ∧
            now < t + RATE_LIMIT_WINDOW := by
          simpa [recentOf] using h1
        exact h2.2
      · have : t = now := by simpa using h1
        subst this
        simp [RATE_LIMIT_WINDOW]
  · intro h
    rw [checkRateLimit_flag]
    simpa using Nat.not_lt.2 h

/-- Witness for C7 at a concrete input: an admission from one prior
timestamp leaves a bounded, in-window list. -/
theorem c7_rate_window_cap_witness :
    (checkRateLimit [("a", [5])] 10 "a").1 = true ∧
    ∃ l, alookup (checkRateLimit [("a", [5])] 10 "a").2 "a" = some l ∧
      l.length ≤ MAX_REQUESTS_PER_MINUTE ∧
      ∀ t ∈ l, 10 < t + RATE_LIMIT_WINDOW :=
  ⟨by decide, (c7_rate_window_cap [("a", [5])] 10 "a").1 (by decide)⟩

/-- C9: a rejected admission leaves the limiter map exactly as it was —
the pruned list is not written back and no timestamp is appended. -/
theorem c9_rejected_admission_frame (rl : RateMap) (now : Nat) (ip : String)
    (h : (checkRateLimit rl now ip).1 = false) :
    (checkRateLimit rl now ip).2 = rl ∧
    alookup (checkRateLimit rl now ip).2 ip = alookup rl ip := by
  have hstate := checkRateLimit_false_state rl now ip h
  exact ⟨hstate, by rw [hstate]⟩

/-- Witness for C9 at a concrete input: a key at the limit is rejected and
the map is unchanged. -/
theorem c9_rejected_admission_frame_witness :
    (checkRateLimit [("a", List.replicate 50 10)] 20 "a").1 = false ∧
    (checkRateLimit [("a", List.replicate 50 10)] 20 "a").2 =
      [("a", List.replicate 50 10)] :=
  ⟨by decide,
    (c9_rejected_admission_frame [("a", List.replicate 50 10)] 20 "a"
      (by decide)).1⟩

/-- C3: the cache read returns the stored record iff an entry exists whose
age satisfies `now - storedAt < TTL` (TTL = `CACHE_DURATION` = 5 minutes);
a stale or missing entry yields `none`; and the read leaves the cache map
unchanged. -/
theorem c3_cache_read_fresh_iff (cache : Cache) (now : Nat) (id : String)
    (r : PriceRecord) :
    ((getCachedData cache now id).1 = some r ↔
      ∃ e, alookup cache id = some e ∧ e.data = r ∧
        now - e.timestamp < CACHE_DURATION)
    ∧ (getCachedData cache now id).2 = cache := by
  constructor
  · unfold getCachedData
    cases h : alookup cache id with
    | none => simp
    | some e =>
      by_cases hf : now - e.timestamp < CACHE_DURATION
      · simp only [hf, if_true]
        constructor
        · intro he
          exact ⟨e, rfl, by simpa using he, hf⟩
        · rintro ⟨e', he', hd, _⟩
          have : e' = e := by simpa using he'.symm
          subst this
          simpa using hd
      · simp only [hf, if_false]
        constructor
        · intro he
          simp at he
        · rintro ⟨e', he', _, hfresh⟩
          have : e' = e := by simpa using he'.symm
          subst this
          exact absurd hfresh hf
  · unfold getCachedData
    cases h : alookup cache id <;> simp

/-- Witness for C3 at a concrete input: a fresh entry is returned and the
map is untouched. -/
theorem c3_cache_read_fresh_iff_witness :
    (getCachedData [("btc", ⟨⟨"Bitcoin", "BTC", 45000⟩, 0⟩)] 1000 "btc").1 =
      some ⟨"Bitcoin", "BTC", 45000⟩ ∧
    (getCachedData [("btc", ⟨⟨"Bitcoin", "BTC", 45000⟩, 0⟩)] 1000 "btc").2 =
      [("btc", ⟨⟨"Bitcoin", "BTC", 45000⟩, 0⟩)] := by
  constructor
  · exact ((c3_cache_read_fresh_iff
      [("btc", ⟨⟨"Bitcoin", "BTC", 45000⟩, 0⟩)] 1000 "btc"
      ⟨"Bitcoin", "BTC", 45000⟩).1).2
      ⟨⟨⟨"Bitcoin", "BTC", 45000⟩, 0⟩, by decide, rfl, by decide⟩
  · exact (c3_cache_read_fresh_iff
      [("btc", ⟨⟨"Bitcoin", "BTC", 45000⟩, 0⟩)] 1000 "btc"
      ⟨"Bitcoin", "BTC", 45000⟩).2

/-! Lemmas about the bulk result-combining loop. -/

theorem fetchInfo_id (u : Upstream) (id : String) :
    (fetchInfo u id).id = id := by
  unfold fetchInfo
  cases u.infoOf id <;> rfl

theorem combineStep_lookup_ne (resp : List (String × SimpleEntry))
    (acc : List (String × PriceRecord)) (info : InfoResult) (id : String)
    (h : info.id ≠ id) :
    alookup (combineStep resp acc info) id = alookup acc id := by
  unfold combineStep
  cases alookup resp info.id with
  | none => rfl
  | some e => exact alookup_aset_ne _ _ _ _ h

theorem combine_foldl_lookup_ne (resp : List (String × SimpleEntry))
    (infos : List InfoResult) (acc : List (String × PriceRecord))
    (id : String) (h : ∀ i ∈ infos, i.id ≠ id) :
    alookup (infos.foldl (combineStep resp) acc) id = alookup acc id := by
  induction infos generalizing acc with
  | nil => rfl
  | cons a as ih =>
    simp only [List.foldl_cons]
    rw [ih _ fun i hi => h i (List.mem_cons_of_mem _ hi)]
    exact combineStep_lookup_ne _ _ _ _ (h a (List.mem_cons_self _ _))

theorem combine_lookup_of_mem (u : Upstream)
    (resp : List (String × SimpleEntry)) (ids : List String) (id : String)
    (entry : SimpleEntry) (hmem : id ∈ ids)
    (hresp : alookup resp id = some entry) :
    alookup (combineResults resp (ids.map (fetchInfo u))) id =
      some ⟨(fetchInfo u id).name, (fetchInfo u id).symbol, entry.usd⟩ := by
  unfold combineResults
  suffices h : ∀ (ids' : List String) (acc : List (String × PriceRecord)),
      id ∈ ids' →
      alookup ((ids'.map (fetchInfo u)).foldl (combineStep resp) acc) id =
        some ⟨(fetchInfo u id).name, (fetchInfo u id).symbol, entry.usd⟩ by
    exact h ids [] hmem
  intro ids' acc hmem'
  induction ids' generalizing acc with
  | nil => simp at hmem'
  | cons a as ih =>
    simp only [List.map_cons, List.foldl_cons]
    by_cases hmem2 : id ∈ as
    · exact ih _ hmem2
    · have ha : id = a := by
        rcases List.mem_cons.1 hmem' with h1 | h1
        · exact h1
        · exact absurd h1 hmem2
      subst ha
      rw [combine_foldl_lookup_ne]
      · unfold combineStep
        rw [fetchInfo_id, hresp]
        exact alookup_aset_self _ _ _
      · intro i hi
        rcases List.mem_map.1 hi with ⟨b, hb, hbi⟩
        rw [← hbi, fetchInfo_id]
        intro hbid
        exact hmem2 (hbid ▸ hb)

theorem combine_lookup_absent (resp : List (String × SimpleEntry))
    (infos : List InfoResult) (acc : List (String × PriceRecord))
    (id : String) (hresp : alookup resp id = none) :
    alookup (infos.foldl (combineStep resp) acc) id = alookup acc id := by
  induction infos generalizing acc with
  | nil => rfl
  | cons a as ih =>
    simp only [List.foldl_cons]
    rw [ih]
    unfold combineStep
    by_cases h : a.id = id
    · rw [h, hresp]
    · cases alookup resp a.id with
      | none => rfl
      | some e => exact alookup_aset_ne _ _ _ _ h

theorem combine_price_provenance (resp : List (String × SimpleEntry))
    (infos : List InfoResult) (acc : List (String × PriceRecord))
    (id : String) (r : PriceRecord)
    (hacc : ∀ r', alookup acc id = some r' →
      ∃ e, alookup resp id = some e ∧ r'.price = e.usd)
    (h : alookup (infos.foldl (combineStep resp) acc) id = some r) :
    ∃ e, alookup resp id = some e ∧ r.price = e.usd := by
  induction infos generalizing acc with
  | nil => exact hacc r h
  | cons a as ih =>
    simp only [List.foldl_cons] at h
    refine ih _ ?_ h
    intro r' hr'
    unfold combineStep at hr'
    cases he : alookup resp a.id with
    | none =>
      rw [he] at hr'
      exact hacc r' hr'
    | some e =>
      rw [he] at hr'
      by_cases hid : a.id = id
      · rw [hid] at he
        rw [hid, alookup_aset_self] at hr'
        refine ⟨e, he, ?_⟩
        have : (⟨a.name, a.symbol, e.usd⟩ : PriceRecord) = r' := by
          simpa using hr'
        rw [← this]
      · rw [alookup_aset_ne _ _ _ _ hid] at hr'
        exact hacc r' hr'

theorem combine_keys_nodup (resp : List (String × SimpleEntry))
    (infos : List InfoResult) (acc : List (String × PriceRecord))
    (h : (acc.map Prod.fst).Nodup) :
    (((infos.foldl (combineStep resp) acc)).map Prod.fst).Nodup := by
  induction infos generalizing acc with
  | nil => exact h
  | cons a as ih =>
    simp only [List.foldl_cons]
    refine ih _ ?_
    unfold combineStep
    cases alookup resp a.id with
    | none => exact h
    | some e => exact keys_nodup_aset _ _ _ h

/-- C1 counterexample: with a price call that succeeds for "btc" and a
metadata call that fails (HTTP 500), the single-identifier fetch does NOT
return a fallback `PriceRecord` — it propagates the metadata failure, so
the claimed parity with the bulk fetch is false. -/
theorem c1_single_fetch_no_fallback_counterexample :
    uMetaFail.priceOf ["btc"] = .ok [("btc", ⟨100⟩)] ∧
    getCryptocurrencyData uMetaFail "btc" = .error (.other (.status 500)) ∧
    ∀ r : PriceRecord, getCryptocurrencyData uMetaFail "btc" ≠ .ok r := by
  have heq : getCryptocurrencyData uMetaFail "btc" =
      .error (.other (.status 500)) := rfl
  refine ⟨rfl, heq, ?_⟩
  intro r h
  rw [heq] at h
  exact Except.noConfusion h

/-- C1 amended: only the BULK fetch survives a metadata failure — for any
id in the bulk list whose price resolved, a failing info call yields a
record with the id as fallback name and its uppercase as fallback symbol;
the single fetch instead propagates the classified metadata failure
(shown by the counterexample). -/
theorem c1_bulk_metadata_fallback (u : Upstream) (ids : List String)
    (id : String) (resp : List (String × SimpleEntry)) (entry : SimpleEntry)
    (hp : u.priceOf ids = .ok resp) (hmem : id ∈ ids)
    (hentry : alookup resp id = some entry)
    (hinfo : ∃ e, u.infoOf id = .error e) :
    ∃ m, getMultipleCryptocurrencyData u ids = .ok m ∧
      alookup m id = some ⟨id, id.toUpper, entry.usd⟩ := by
  refine ⟨combineResults resp (ids.map (fetchInfo u)), ?_, ?_⟩
  · unfold getMultipleCryptocurrencyData
    rw [hp]
  · rw [combine_lookup_of_mem u resp ids id entry hmem hentry]
    obtain ⟨e, he⟩ := hinfo
    unfold fetchInfo
    rw [he]

/-- Witness for the amended C1 at a concrete input: price ok, info call
failing, the bulk result holds the fallback record. -/
theorem c1_bulk_metadata_fallback_witness :
    uMetaFail.priceOf ["btc"] = .ok [("btc", ⟨100⟩)] ∧
    ∃ m, getMultipleCryptocurrencyData uMetaFail ["btc"] = .ok m ∧
      alookup m "btc" = some ⟨"btc", "btc".toUpper, 100⟩ := by
  refine ⟨rfl, ?_⟩
  exact c1_bulk_metadata_fallback uMetaFail ["btc"] "btc"
    [("btc", ⟨100⟩)] ⟨100⟩ rfl (by simp) (by decide) ⟨.status 500, rfl⟩

/-- C8 counterexample: an identifier PRESENT in the upstream price
response with `usd = 0` is successfully resolved with price 0 — the code
never checks positivity, so "price is always > 0" is false. -/
theorem c8_zero_price_counterexample :
    getCryptocurrencyData uZeroPrice "zed" =
      .ok ⟨"Zed", "zed".toUpper, 0⟩ ∧
    ¬ (0 : Int) < (⟨"Zed", "zed".toUpper, 0⟩ : PriceRecord).price :=
  ⟨rfl, by decide⟩

/-- C8 amended: the returned price is exactly the upstream `usd` value
(so it is positive exactly when upstream reports it positive), and an
identifier absent from the upstream price response is treated as not
found by the single fetch and omitted by the bulk fetch — absence is
never reported as a zero price. -/
theorem c8_price_passthrough (u : Upstream) (id : String) :
    (∀ r, getCryptocurrencyData u id = .ok r →
      ∃ resp entry, u.priceOf [id] = .ok resp ∧
        alookup resp id = some entry ∧ r.price = entry.usd)
    ∧ (∀ resp, u.priceOf [id] = .ok resp → alookup resp id = none →
        getCryptocurrencyData u id = .error .notFound)
    ∧ (∀ ids resp m r, u.priceOf ids = .ok resp →
        getMultipleCryptocurrencyData u ids = .ok m →
        alookup m id = some r →
        ∃ entry, alookup resp id = some entry ∧ r.price = entry.usd)
    ∧ (∀ ids resp m, u.priceOf ids = .ok resp → alookup resp id = none →
        getMultipleCryptocurrencyData u ids = .ok m →
        alookup m id = none) := by
  refine ⟨?_, ?_, ?_, ?_⟩
  · intro r h
    unfold getCryptocurrencyData at h
    cases hp : u.priceOf [id] with
    | error e => rw [hp] at h; exact Except.noConfusion h
    | ok resp =>
      rw [hp] at h
      dsimp only at h
      cases he : alookup resp id with
      | none => rw [he] at h; exact Except.noConfusion h
      | some entry =>
        rw [he] at h
        dsimp only at h
        cases hi : u.infoOf id with
        | error e => rw [hi] at h; exact Except.noConfusion h
        | ok info =>
          rw [hi] at h
          dsimp only at h
          have hr : (⟨info.name, info.symbol.toUpper, entry.usd⟩ :
              PriceRecord) = r := by
            have := h
            injection this
          exact ⟨resp, entry, rfl, he, by rw [← hr]⟩
  · intro resp hp he
    unfold getCryptocurrencyData
    rw [hp]
    dsimp only
    rw [he]
  · intro ids resp m r hp hm hl
    unfold getMultipleCryptocurrencyData at hm
    rw [hp] at hm
    have hmeq : combineResults resp (ids.map (fetchInfo u)) = m := by
      injection hm
    rw [← hmeq] at hl
    exact combine_price_provenance resp _ [] id r
      (fun r' hr' => by simp [alookup] at hr') hl
  · intro ids resp m hp he hm
    unfold getMultipleCryptocurrencyData at hm
    rw [hp] at hm
    have hmeq : combineResults resp (ids.map (fetchInfo u)) = m := by
      injection hm
    rw [← hmeq]
    unfold combineResults
    rw [combine_lookup_absent resp _ [] id he]
    rfl

/-- Witness for the amended C8 at a concrete input: the resolved record's
price is exactly the upstream usd value. -/
theorem c8_price_passthrough_witness :
    getCryptocurrencyData uGood "btc" =
      .ok ⟨"Bitcoin", "btc".toUpper, 45000⟩ ∧
    ∃ resp entry, uGood.priceOf ["btc"] = .ok resp ∧
      alookup resp "btc" = some entry ∧
      (⟨"Bitcoin", "btc".toUpper, 45000⟩ : PriceRecord).price = entry.usd := by
  refine ⟨rfl, ?_⟩
  exact (c8_price_passthrough uGood "btc").1
    ⟨"Bitcoin", "btc".toUpper, 45000⟩ rfl

/-- C6: every failure of `GET /price/{id}` maps to exactly one of the four
fixed `{error, message}` objects — 404 not found, 429 rate limited (local
or upstream), 408 timeout, 500 anything else — and the 500 response is
the same constant object for every underlying error, so no raw upstream
detail ever reaches the caller. -/
theorem c6_single_endpoint_error_mapping (u : Upstream) (s : ServerState)
    (now : Nat) (ip id : String) :
    ((checkRateLimit s.rateLimiter now ip).1 = false →
      (handlePrice u s now ip id).1 = localRejectResp)
    ∧ ((checkRateLimit s.rateLimiter now ip).1 = true →
       (getCachedData s.cache now id).1 = none →
       ∀ e, getCryptocurrencyData u id = .error e →
         (handlePrice u s now ip id).1 = errorResponse e)
    ∧ (errorResponse .notFound = ⟨404, .errObj "Cryptocurrency not found"
          "The specified cryptocurrency ID does not exist"⟩
       ∧ errorResponse .rateLimited = ⟨429, .errObj "Rate limit exceeded"
          "API rate limit exceeded. Please try again later."⟩
       ∧ errorResponse .timeout = ⟨408, .errObj "Request timeout"
          "Request took too long to complete"⟩
       ∧ ∀ e, errorResponse (.other e) = ⟨500, .errObj "Internal server error"
          "Failed to fetch cryptocurrency data"⟩)
    ∧ localRejectResp = ⟨429, .errObj "Rate limit exceeded"
        "Too many requests. Please try again later."⟩ := by
  refine ⟨?_, ?_, ⟨rfl, rfl, rfl, fun e => rfl⟩, rfl⟩
  · intro h
    unfold handlePrice
    rcases hc : checkRateLimit s.rateLimiter now ip with ⟨ok, rl'⟩
    rw [hc] at h
    dsimp only at h
    subst h
    rfl
  · intro h hmiss e herr
    unfold handlePrice
    rcases hc : checkRateLimit s.rateLimiter now ip with ⟨ok, rl'⟩
    rw [hc] at h
    dsimp only at h
    subst h
    dsimp only
    rw [hmiss]
    dsimp only
    rw [herr]

/-- Witness for C6 at a concrete input: an admitted, uncached request
whose upstream call times out yields the 408 timeout object. -/
theorem c6_single_endpoint_error_mapping_witness :
    (checkRateLimit ([] : RateMap) 5 "a").1 = true ∧
    (getCachedData ([] : Cache) 5 "btc").1 = none ∧
    getCryptocurrencyData uTimeout "btc" = .error .timeout ∧
    (handlePrice uTimeout ⟨[], []⟩ 5 "a" "btc").1 = errorResponse .timeout := by
  refine ⟨by decide, rfl, rfl, ?_⟩
  exact (c6_single_endpoint_error_mapping uTimeout ⟨[], []⟩ 5 "a"
    "btc").2.1 (by decide) rfl .timeout rfl

/-! Lemmas about the bulk endpoint's partition, merge and write-through. -/

theorem alookup_eq_none_iff {α : Type} (m : List (String × α)) (id : String) :
    alookup m id = none ↔ ∀ p ∈ m, p.1 ≠ id := by
  induction m with
  | nil => simp [alookup]
  | cons p rest ih =>
    by_cases h : p.1 = id
    · simp [alookup, h]
    · simp [alookup, h, ih]

theorem partitionCached_missing (cache : Cache) (now : Nat)
    (coinIds : List String) :
    (partitionCached cache now coinIds).2 =
      coinIds.filter fun id => ((getCachedData cache now id).1).isNone := by
  unfold partitionCached
  suffices h : ∀ (ids : List String)
      (acc : List (String × PriceRecord) × List String),
      (ids.foldl (fun acc id =>
        match (getCachedData cache now id).1 with
        | some c => (aset acc.1 id c, acc.2)
        | none => (acc.1, acc.2 ++ [id])) acc).2 =
        acc.2 ++ ids.filter fun id => ((getCachedData cache now id).1).isNone by
    simpa using h coinIds ([], [])
  intro ids
  induction ids with
  | nil => intro acc; simp
  | cons a as ih =>
    intro acc
    simp only [List.foldl_cons]
    cases hga : (getCachedData cache now a).1 with
    | some c =>
      rw [ih]
      simp [List.filter_cons, hga]
    | none =>
      rw [ih]
      simp [List.filter_cons, hga]

theorem partitionCached_cached_lookup (cache : Cache) (now : Nat)
    (coinIds : List String) (id : String) :
    alookup (partitionCached cache now coinIds).1 id =
      if id ∈ coinIds then (getCachedData cache now id).1 else none := by
  unfold partitionCached
  suffices h : ∀ (ids : List String)
      (acc : List (String × PriceRecord) × List String),
      alookup (ids.foldl (fun acc id =>
        match (getCachedData cache now id).1 with
        | some c => (aset acc.1 id c, acc.2)
        | none => (acc.1, acc.2 ++ [id])) acc).1 id =
        if id ∈ ids ∧ ((getCachedData cache now id).1).isSome
        then (getCachedData cache now id).1 else alookup acc.1 id by
    rw [h coinIds ([], [])]
    by_cases hmem : id ∈ coinIds
    · cases hga : (getCachedData cache now id).1 with
      | none => simp [hmem, hga, alookup]
      | some c => simp [hmem, hga]
    · simp [hmem, alookup]
  intro ids
  induction ids with
  | nil => intro acc; simp
  | cons a as ih =>
    intro acc
    simp only [List.foldl_cons]
    rw [ih]
    by_cases hcond : id ∈ as ∧ ((getCachedData cache now id).1).isSome
    · rw [if_pos hcond, if_pos ⟨List.mem_cons_of_mem _ hcond.1, hcond.2⟩]
    · rw [if_neg hcond]
      by_cases ha : a = id
      · subst ha
        cases hga : (getCachedData cache now a).1 with
        | some c =>
          rw [if_pos ⟨List.mem_cons_self _ _, by simp⟩]
          dsimp only
          exact alookup_aset_self _ _ _
        | none =>
          rw [if_neg (by simp)]
      · rw [if_neg (by
          rintro ⟨h1, h2⟩
          rcases List.mem_cons.1 h1 with h3 | h3
          · exact ha h3.symm
          · exact hcond ⟨h3, h2⟩)]
        cases hga : (getCachedData cache now a).1 with
        | some c =>
          dsimp only
          exact alookup_aset_ne _ _ _ _ ha
        | none => rfl

theorem merge_foldl_lookup_ne (b : List (String × PriceRecord))
    (acc : List (String × PriceRecord)) (id : String)
    (h : ∀ p ∈ b, p.1 ≠ id) :
    alookup (b.foldl (fun acc p => aset acc p.1 p.2) acc) id =
      alookup acc id := by
  induction b generalizing acc with
  | nil => rfl
  | cons p rest ih =>
    simp only [List.foldl_cons]
    rw [ih _ fun q hq => h q (List.mem_cons_of_mem _ hq)]
    exact alookup_aset_ne _ _ _ _ (h p (List.mem_cons_self _ _))

theorem objMerge_lookup_right_none (a b : List (String × PriceRecord))
    (id : String) (h : alookup b id = none) :
    alookup (objMerge a b) id = alookup a id := by
  unfold objMerge
  exact merge_foldl_lookup_ne b a id ((alookup_eq_none_iff b id).1 h)

theorem objMerge_lookup_right_some (a b : List (String × PriceRecord))
    (id : String) (v : PriceRecord) (hnd : (b.map Prod.fst).Nodup)
    (h : alookup b id = some v) :
    alookup (objMerge a b) id = some v := by
  unfold objMerge
  induction b generalizing a with
  | nil => simp [alookup] at h
  | cons p rest ih =>
    simp only [List.foldl_cons]
    by_cases hp : p.1 = id
    · have hv : p.2 = v := by
        have := h
        unfold alookup at this
        rw [if_pos hp] at this
        simpa using this
      have hrest : ∀ q ∈ rest, q.1 ≠ id := by
        intro q hq hqid
        have hnd2 := hnd
        simp only [List.map_cons, List.nodup_cons] at hnd2
        exact hnd2.1 (by
          rw [← hqid] at hp
          rw [hp]
          exact List.mem_map.2 ⟨q, hq, hqid ▸ rfl⟩)
      rw [merge_foldl_lookup_ne rest _ id hrest, hp, ← hv]
      exact alookup_aset_self _ _ _
    · have hrest : alookup rest id = some v := by
        have := h
        unfold alookup at this
        rwa [if_neg hp] at this
      have hnd2 : (rest.map Prod.fst).Nodup := by
        simp only [List.map_cons, List.nodup_cons] at hnd
        exact hnd.2
      exact ih _ hnd2 hrest

theorem cache_foldl_lookup_ne (b : List (String × PriceRecord))
    (cache : Cache) (now : Nat) (id : String) (h : ∀ p ∈ b, p.1 ≠ id) :
    alookup (b.foldl (fun c p => setCachedData c now p.1 p.2) cache) id =
      alookup cache id := by
  induction b generalizing cache with
  | nil => rfl
  | cons p rest ih =>
    simp only [List.foldl_cons]
    rw [ih _ fun q hq => h q (List.mem_cons_of_mem _ hq)]
    exact alookup_aset_ne _ _ _ _ (h p (List.mem_cons_self _ _))

theorem cache_foldl_lookup_some (b : List (String × PriceRecord))
    (cache : Cache) (now : Nat) (id : String) (v : PriceRecord)
    (hnd : (b.map Prod.fst).Nodup) (h : alookup b id = some v) :
    alookup (b.foldl (fun c p => setCachedData c now p.1 p.2) cache) id =
      some ⟨v, now⟩ := by
  induction b generalizing cache with
  | nil => simp [alookup] at h
  | cons p rest ih =>
    simp only [List.foldl_cons]
    by_cases hp : p.1 = id
    · have hv : p.2 = v := by
        have := h
        unfold alookup at this
        rw [if_pos hp] at this
        simpa using this
      have hrest : ∀ q ∈ rest, q.1 ≠ id := by
        intro q hq hqid
        simp only [List.map_cons, List.nodup_cons] at hnd
        exact hnd.1 (by
          rw [← hqid] at hp
          rw [hp]
          exact List.mem_map.2 ⟨q, hq, hqid ▸ rfl⟩)
      rw [cache_foldl_lookup_ne rest _ now id hrest]
      unfold setCachedData
      rw [hp, hv]
      exact alookup_aset_self _ _ _
    · have hrest : alookup rest id = some v := by
        have := h
        unfold alookup at this
        rwa [if_neg hp] at this
      have hnd2 : (rest.map Prod.fst).Nodup := by
        simp only [List.map_cons, List.nodup_cons] at hnd
        exact hnd.2
      exact ih _ hnd2 hrest

theorem getMultiple_keys_nodup (u : Upstream) (ids : List String)
    (m : List (String × PriceRecord))
    (h : getMultipleCryptocurrencyData u ids = .ok m) :
    (m.map Prod.fst).Nodup := by
  unfold getMultipleCryptocurrencyData at h
  cases hp : u.priceOf ids with
  | error e => rw [hp] at h; exact Except.noConfusion h
  | ok resp =>
    rw [hp] at h
    dsimp only at h
    have hm : combineResults resp (ids.map (fetchInfo u)) = m := by
      injection h
    rw [← hm]
    unfold combineResults
    exact combine_keys_nodup resp _ [] (by simp)

theorem handlePricesList_admitted_eval (u : Upstream) (s : ServerState)
    (now : Nat) (ip : String) (coinIds : List String) (rl' : RateMap)
    (hc : checkRateLimit s.rateLimiter now ip = (true, rl')) :
    handlePricesList u s now ip coinIds =
      (if (partitionCached s.cache now coinIds).2.isEmpty
       then (⟨200, .table (partitionCached s.cache now coinIds).1⟩,
         ⟨s.cache, rl'⟩, [])
       else match getMultipleCryptocurrencyData u
           (partitionCached s.cache now coinIds).2 with
       | .error _ =>
         (⟨500, .errObj "Internal server error"
             "Failed to fetch cryptocurrency data"⟩,
           ⟨s.cache, rl'⟩, [(partitionCached s.cache now coinIds).2])
       | .ok fresh =>
         (⟨200, .table (objMerge (partitionCached s.cache now coinIds).1
             fresh)⟩,
           ⟨fresh.foldl (fun c p => setCachedData c now p.1 p.2) s.cache,
             rl'⟩,
           [(partitionCached s.cache now coinIds).2])) := by
  unfold handlePricesList
  rw [hc]

/-- C4: for every admitted bulk request, the handler partitions the ids by
a per-id cache lookup (missing = the cache-miss ids in order, cached =
pointwise the fresh cache hits); exactly one upstream bulk fetch is
issued iff the missing set is non-empty, scoped exactly to the missing
ids; every freshly fetched record is written to the cache with the
current timestamp; and the response is the spread merge of cached and
fresh results keyed by identifier. -/
theorem c4_bulk_partition_fetch_merge (u : Upstream) (s : ServerState)
    (now : Nat) (ip : String) (coinIds : List String)
    (hadm : (checkRateLimit s.rateLimiter now ip).1 = true) :
    ((partitionCached s.cache now coinIds).2 =
      coinIds.filter fun id => ((getCachedData s.cache now id).1).isNone)
    ∧ (∀ id, alookup (partitionCached s.cache now coinIds).1 id =
        if id ∈ coinIds then (getCachedData s.cache now id).1 else none)
    ∧ ((handlePricesList u s now ip coinIds).2.2 =
        if (partitionCached s.cache now coinIds).2.isEmpty then []
        else [(partitionCached s.cache now coinIds).2])
    ∧ (∀ fresh, getMultipleCryptocurrencyData u
          (partitionCached s.cache now coinIds).2 = .ok fresh →
        (partitionCached s.cache now coinIds).2.isEmpty = false →
        (∀ id r, alookup fresh id = some r →
          alookup (handlePricesList u s now ip coinIds).2.1.cache id =
            some ⟨r, now⟩) ∧
        (handlePricesList u s now ip coinIds).1 =
          ⟨200, .table (objMerge (partitionCached s.cache now coinIds).1
            fresh)⟩)
    ∧ ((partitionCached s.cache now coinIds).2.isEmpty = true →
        (handlePricesList u s now ip coinIds).1 =
          ⟨200, .table (partitionCached s.cache now coinIds).1⟩) := by
  have hc : checkRateLimit s.rateLimiter now ip =
      (true, (checkRateLimit s.rateLimiter now ip).2) := by
    rw [← hadm]
  have heval := handlePricesList_admitted_eval u s now ip coinIds _ hc
  refine ⟨partitionCached_missing s.cache now coinIds,
    fun id => partitionCached_cached_lookup s.cache now coinIds id,
    ?_, ?_, ?_⟩
  · rw [heval]
    by_cases hemp : (partitionCached s.cache now coinIds).2.isEmpty
    · rw [if_pos hemp, if_pos hemp]
    · rw [if_neg hemp, if_neg hemp]
      cases getMultipleCryptocurrencyData u
          (partitionCached s.cache now coinIds).2 with
      | error e => rfl
      | ok fresh => rfl
  · intro fresh hfresh hne
    rw [heval, if_neg (by rw [hne]; exact Bool.false_ne_true), hfresh]
    constructor
    · intro id r hr
      dsimp only
      exact cache_foldl_lookup_some fresh s.cache now id r
        (getMultiple_keys_nodup u _ fresh hfresh) hr
    · rfl
  · intro hemp
    rw [heval, if_pos hemp]

theorem getCryptocurrencyData_absent (u : Upstream) (id : String)
    (resp : List (String × SimpleEntry)) (hp : u.priceOf [id] = .ok resp)
    (he : alookup resp id = none) :
    getCryptocurrencyData u id = .error .notFound := by
  unfold getCryptocurrencyData
  rw [hp]
  dsimp only
  rw [he]

/-- Witness for C4 at the spec's own scenario: "btc" cached, "eth" not;
exactly one upstream fetch scoped to ["eth"] and the fresh record is
written through to the cache. -/
theorem c4_bulk_partition_fetch_merge_witness :
    (checkRateLimit ([] : RateMap) 1000 "a").1 = true ∧
    (partitionCached c4Cache 1000 ["btc", "eth"]).2 = ["eth"] ∧
    (handlePricesList uEth ⟨c4Cache, []⟩ 1000 "a" ["btc", "eth"]).2.2 =
      [["eth"]] ∧
    alookup (handlePricesList uEth ⟨c4Cache, []⟩ 1000 "a"
        ["btc", "eth"]).2.1.cache "eth" =
      some ⟨⟨"Ethereum", "eth".toUpper, 2800⟩, 1000⟩ := by
  have hthm := c4_bulk_partition_fetch_merge uEth ⟨c4Cache, []⟩ 1000 "a"
    ["btc", "eth"] (by decide)
  refine ⟨by decide, by decide, ?_, ?_⟩
  · rw [hthm.2.2.1]
    decide
  · have h4 := hthm.2.2.2.1 [("eth", ⟨"Ethereum", "eth".toUpper, 2800⟩)]
      rfl rfl
    exact h4.1 "eth" ⟨"Ethereum", "eth".toUpper, 2800⟩ rfl

/-- C5: an identifier absent from the upstream price response yields a 404
"Cryptocurrency not found" object on the single endpoint, and is silently
omitted (no error entry) from the 200 mapping of the bulk endpoint. -/
theorem c5_absent_id_single_404_bulk_omitted (u : Upstream)
    (s : ServerState) (now : Nat) (ip id : String)
    (hadm : (checkRateLimit s.rateLimiter now ip).1 = true)
    (hmiss : (getCachedData s.cache now id).1 = none) :
    (∀ resp, u.priceOf [id] = .ok resp → alookup resp id = none →
      (handlePrice u s now ip id).1 =
        ⟨404, .errObj "Cryptocurrency not found"
          "The specified cryptocurrency ID does not exist"⟩)
    ∧ (∀ coinIds resp, id ∈ coinIds →
        u.priceOf (partitionCached s.cache now coinIds).2 = .ok resp →
        alookup resp id = none →
        ∃ tbl, (handlePricesList u s now ip coinIds).1 = ⟨200, .table tbl⟩ ∧
          alookup tbl id = none) := by
  have hc : checkRateLimit s.rateLimiter now ip =
      (true, (checkRateLimit s.rateLimiter now ip).2) := by
    rw [← hadm]
  constructor
  · intro resp hp he
    unfold handlePrice
    rw [hc]
    dsimp only
    rw [hmiss]
    dsimp only
    rw [getCryptocurrencyData_absent u id resp hp he]
    rfl
  · intro coinIds resp hmem hp he
    have hidmiss : id ∈ (partitionCached s.cache now coinIds).2 := by
      rw [partitionCached_missing]
      exact List.mem_filter.2 ⟨hmem, by simp [hmiss]⟩
    have hne : (partitionCached s.cache now coinIds).2.isEmpty = false := by
      cases hl : (partitionCached s.cache now coinIds).2 with
      | nil => rw [hl] at hidmiss; simp at hidmiss
      | cons x xs => simp
    have hfetch : getMultipleCryptocurrencyData u
        (partitionCached s.cache now coinIds).2 =
        .ok (combineResults resp
          ((partitionCached s.cache now coinIds).2.map (fetchInfo u))) := by
      unfold getMultipleCryptocurrencyData
      rw [hp]
    rw [handlePricesList_admitted_eval u s now ip coinIds _ hc,
      if_neg (by rw [hne]; exact Bool.false_ne_true), hfetch]
    refine ⟨_, rfl, ?_⟩
    have hfreshnone : alookup (combineResults resp
        ((partitionCached s.cache now coinIds).2.map (fetchInfo u))) id =
        none := by
      unfold combineResults
      rw [combine_lookup_absent resp _ [] id he]
      rfl
    rw [objMerge_lookup_right_none _ _ _ hfreshnone,
      partitionCached_cached_lookup, if_pos hmem, hmiss]

/-- Witness for C5 at a concrete input: upstream returns an empty price
map for "nope"; the single endpoint answers 404, the bulk endpoint
answers 200 without the id. -/
theorem c5_absent_id_single_404_bulk_omitted_witness :
    (checkRateLimit ([] : RateMap) 5 "a").1 = true ∧
    (getCachedData ([] : Cache) 5 "nope").1 = none ∧
    (handlePrice uEmpty ⟨[], []⟩ 5 "a" "nope").1 =
      ⟨404, .errObj "Cryptocurrency not found"
        "The specified cryptocurrency ID does not exist"⟩ ∧
    ∃ tbl, (handlePricesList uEmpty ⟨[], []⟩ 5 "a" ["nope"]).1 =
        ⟨200, .table tbl⟩ ∧
      alookup tbl "nope" = none := by
  have hthm := c5_absent_id_single_404_bulk_omitted uEmpty ⟨[], []⟩ 5 "a"
    "nope" (by decide) rfl
  exact ⟨by decide, rfl, hthm.1 [] rfl rfl,
    hthm.2 ["nope"] [] (by simp) rfl rfl⟩

/-! Both endpoints drive the one shared limiter. -/

theorem handlePrice_rateLimiter (u : Upstream) (s : ServerState) (now : Nat)
    (ip id : String) :
    (handlePrice u s now ip id).2.rateLimiter =
      (checkRateLimit s.rateLimiter now ip).2 := by
  unfold handlePrice
  rcases hc : checkRateLimit s.rateLimiter now ip with ⟨ok, rl'⟩
  cases ok with
  | false => rfl
  | true =>
    dsimp only
    cases (getCachedData s.cache now id).1 with
    | some d => rfl
    | none =>
      dsimp only
      cases getCryptocurrencyData u id with
      | ok d => rfl
      | error e => rfl

theorem handlePricesList_rateLimiter (u : Upstream) (s : ServerState)
    (now : Nat) (ip : String) (coinIds : List String) :
    (handlePricesList u s now ip coinIds).2.1.rateLimiter =
      (checkRateLimit s.rateLimiter now ip).2 := by
  unfold handlePricesList
  rcases hc : checkRateLimit s.rateLimiter now ip with ⟨ok, rl'⟩
  cases ok with
  | false => rfl
  | true =>
    dsimp only
    by_cases hemp : (partitionCached s.cache now coinIds).2.isEmpty
    · rw [if_pos hemp]
    · rw [if_neg hemp]
      cases getMultipleCryptocurrencyData u
          (partitionCached s.cache now coinIds).2 with
      | error e => rfl
      | ok fresh => rfl

theorem errorResponse_ne_localReject (e : FetchErr) :
    errorResponse e ≠ localRejectResp := by
  cases e <;> simp [errorResponse, localRejectResp]

theorem handlePrice_localReject_iff (u : Upstream) (s : ServerState)
    (now : Nat) (ip id : String) :
    (handlePrice u s now ip id).1 = localRejectResp ↔
      (checkRateLimit s.rateLimiter now ip).1 = false := by
  unfold handlePrice
  rcases hc : checkRateLimit s.rateLimiter now ip with ⟨ok, rl'⟩
  cases ok with
  | false => simp
  | true =>
    dsimp only
    cases (getCachedData s.cache now id).1 with
    | some d => simp [localRejectResp]
    | none =>
      dsimp only
      cases getCryptocurrencyData u id with
      | ok d => simp [localRejectResp]
      | error e =>
        simpa using errorResponse_ne_localReject e

theorem handlePricesList_localReject_iff (u : Upstream) (s : ServerState)
    (now : Nat) (ip : String) (coinIds : List String) :
    (handlePricesList u s now ip coinIds).1 = localRejectResp ↔
      (checkRateLimit s.rateLimiter now ip).1 = false := by
  unfold handlePricesList
  rcases hc : checkRateLimit s.rateLimiter now ip with ⟨ok, rl'⟩
  cases ok with
  | false => simp
  | true =>
    dsimp only
    by_cases hemp : (partitionCached s.cache now coinIds).2.isEmpty
    · rw [if_pos hemp]
      simp [localRejectResp]
    · rw [if_neg hemp]
      cases getMultipleCryptocurrencyData u
          (partitionCached s.cache now coinIds).2 with
      | error e => simp [localRejectResp]
      | ok fresh => simp [localRejectResp]

/-! Sliding-window cap along a whole request trace. -/

theorem count_filter_pos (l : List Nat) (p : Nat → Bool) (x : Nat)
    (h : p x = true) : (l.filter p).count x = l.count x := by
  induction l with
  | nil => rfl
  | cons a as ih =>
    rw [List.filter_cons]
    by_cases ha : p a = true
    · rw [if_pos ha]
      simp only [List.count_cons, ih]
    · rw [if_neg ha, ih]
      have hax : (a == x) = false := by
        cases hax : a == x
        · rfl
        · exfalso
          have hxa := eq_of_beq hax
          subst hxa
          exact ha h
      rw [List.count_cons, hax]
      simp

theorem count_filter_le_count_filter (l : List Nat) (p q : Nat → Bool)
    (h : ∀ a, p a = true → q a = true) (x : Nat) :
    (l.filter p).count x ≤ (l.filter q).count x := by
  by_cases hp : p x = true
  · rw [count_filter_pos l p x hp, count_filter_pos l q x (h x hp)]
  · have hx : x ∉ l.filter p := fun hmem => hp (List.mem_filter.1 hmem).2
    rw [List.count_eq_zero_of_not_mem hx]
    exact Nat.zero_le _

theorem inWindow_self (t : Nat) : inWindow t t = true := by
  simp [inWindow, RATE_LIMIT_WINDOW]

theorem inWindow_mono (T t x : Nat) (h1 : t ≤ T) (h2 : x ≤ t)
    (hw : inWindow T x = true) : inWindow t x = true := by
  simp only [inWindow, Bool.and_eq_true, decide_eq_true_eq] at hw ⊢
  omega

theorem runLimiter_cap_aux (reqs : List (String × Nat)) :
    ∀ (rl : RateMap) (pre : List Nat) (m : Nat) (ip : String),
    timesMono m reqs →
    (∀ t ∈ pre, t ≤ m) →
    (∀ x : Nat,
      ((pre.filter fun t => decide (m < t + RATE_LIMIT_WINDOW)).count x)
        ≤ (((alookup rl ip).getD []).count x)) →
    (∀ T, (pre.filter (inWindow T)).length ≤ MAX_REQUESTS_PER_MINUTE) →
    ∀ T, ((pre ++ (((runLimiter rl reqs).2.filter
        fun p => p.1 == ip).map Prod.snd)).filter (inWindow T)).length
      ≤ MAX_REQUESTS_PER_MINUTE := by
  induction reqs with
  | nil =>
    intro rl pre m ip _ _ _ hcap T
    simpa [runLimiter] using hcap T
  | cons q rest ih =>
    rcases q with ⟨qip, qt⟩
    intro rl pre m ip hmono hle hcount hcap T
    obtain ⟨hmt, hmono'⟩ := hmono
    simp only [runLimiter]
    cases hip : qip == ip with
    | false =>
      have hne : qip ≠ ip := by
        intro h
        rw [h] at hip
        simp at hip
      have hfilter : ∀ l : List (String × Nat),
          (((qip, qt) :: l).filter fun p => p.1 == ip) =
            l.filter fun p => p.1 == ip := by
        intro l
        rw [List.filter_cons]
        simp [hip]
      cases hflag : (checkRateLimit rl qt qip).1 with
      | false =>
        rw [if_neg (by simp)]
        exact ih (checkRateLimit rl qt qip).2 pre qt ip hmono'
          (fun t ht => Nat.le_trans (hle t ht) hmt)
          (fun x => by
            rw [checkRateLimit_lookup_ne rl qt qip ip hne]
            exact Nat.le_trans (count_filter_le_count_filter pre _ _
              (fun a ha => by
                have ha2 := of_decide_eq_true ha
                exact decide_eq_true (by omega)) x) (hcount x))
          hcap T
      | true =>
        rw [if_pos rfl, hfilter]
        exact ih (checkRateLimit rl qt qip).2 pre qt ip hmono'
          (fun t ht => Nat.le_trans (hle t ht) hmt)
          (fun x => by
            rw [checkRateLimit_lookup_ne rl qt qip ip hne]
            exact Nat.le_trans (count_filter_le_count_filter pre _ _
              (fun a ha => by
                have ha2 := of_decide_eq_true ha
                exact decide_eq_true (by omega)) x) (hcount x))
          hcap T
    | true =>
      have heq : qip = ip := eq_of_beq hip
      subst heq
      cases hflag : (checkRateLimit rl qt qip).1 with
      | false =>
        rw [if_neg (by simp), checkRateLimit_false_state rl qt qip hflag]
        exact ih rl pre qt qip hmono'
          (fun t ht => Nat.le_trans (hle t ht) hmt)
          (fun x => Nat.le_trans (count_filter_le_count_filter pre _ _
            (fun a ha => by
              have ha2 := of_decide_eq_true ha
              exact decide_eq_true (by omega)) x) (hcount x))
          hcap T
      | true =>
        rw [if_pos rfl, List.filter_cons]
        have hself : ((qip, qt).1 == qip) = true := by simp
        rw [if_pos hself, List.map_cons]
        have hstored := checkRateLimit_true_lookup rl qt qip hflag
        have hlen : (recentOf rl qt qip).length < MAX_REQUESTS_PER_MINUTE := by
          have := checkRateLimit_flag rl qt qip
          rw [hflag] at this
          simpa using this.symm
        have hqtpred : (fun t => decide (qt < t + RATE_LIMIT_WINDOW)) qt
            = true := by
          simp [RATE_LIMIT_WINDOW]
        have hcount_core : ∀ x : Nat,
            ((pre.filter fun t =>
              decide (qt < t + RATE_LIMIT_WINDOW)).count x)
              ≤ ((recentOf rl qt qip).count x) := by
          intro x
          by_cases hx : qt < x + RATE_LIMIT_WINDOW
          · have hx' : (fun t => decide (qt < t + RATE_LIMIT_WINDOW)) x
                = true := decide_eq_true hx
            have hmx' : (fun t => decide (m < t + RATE_LIMIT_WINDOW)) x
                = true := decide_eq_true (by omega)
            unfold recentOf
            rw [count_filter_pos pre _ x hx', count_filter_pos _ _ x hx']
            have hc := hcount x
            rw [count_filter_pos pre _ x hmx'] at hc
            exact hc
          · rw [List.count_eq_zero_of_not_mem
              (fun hmem => hx (by
                have h5 := (List.mem_filter.1 hmem).2
                simpa using h5))]
            exact Nat.zero_le _
        have hprelen : (pre.filter fun t =>
            decide (qt < t + RATE_LIMIT_WINDOW)).length
            ≤ (recentOf rl qt qip).length := by
          refine List.Subperm.length_le (List.subperm_ext_iff.2 ?_)
          intro x _
          exact hcount_core x
        have hgoal := ih (checkRateLimit rl qt qip).2 (pre ++ [qt]) qt qip
          hmono'
          (fun t ht => by
            rcases List.mem_append.1 ht with h1 | h1
            · exact Nat.le_trans (hle t h1) hmt
            · simp only [List.mem_singleton] at h1
              exact Nat.le_of_eq h1)
          (fun x => by
            rw [hstored]
            simp only [Option.getD_some, List.filter_append,
              List.count_append]
            have h1 : ([qt].filter fun t =>
                decide (qt < t + RATE_LIMIT_WINDOW)) = [qt] := by
              simp [RATE_LIMIT_WINDOW]
            rw [h1]
            exact Nat.add_le_add_right (hcount_core x) _)
          (fun T' => by
            by_cases hT' : qt ≤ T'
            · have hmono2 : ((pre ++ [qt]).filter (inWindow T')).length
                  ≤ ((pre ++ [qt]).filter (inWindow qt)).length := by
                rw [← List.countP_eq_length_filter,
                  ← List.countP_eq_length_filter]
                refine List.countP_mono_left ?_
                intro a ha hwa
                refine inWindow_mono T' qt a hT' ?_ hwa
                rcases List.mem_append.1 ha with h1 | h1
                · exact Nat.le_trans (hle a h1) hmt
                · simp only [List.mem_singleton] at h1
                  exact Nat.le_of_eq h1
              refine Nat.le_trans hmono2 ?_
              rw [List.filter_append, List.length_append]
              have h2 : ([qt].filter (inWindow qt)) = [qt] := by
                simp [inWindow_self]
              rw [h2]
              have h3 : (pre.filter (inWindow qt)).length
                  ≤ (pre.filter fun t =>
                    decide (qt < t + RATE_LIMIT_WINDOW)).length := by
                rw [← List.countP_eq_length_filter,
                  ← List.countP_eq_length_filter]
                refine List.countP_mono_left ?_
                intro a _ hwa
                simp only [inWindow, Bool.and_eq_true,
                  decide_eq_true_eq] at hwa
                simpa using hwa.1
              have := Nat.le_trans h3 hprelen
              simp only [List.length_singleton]
              omega
            · have h4 : ((pre ++ [qt]).filter (inWindow T')) =
                  pre.filter (inWindow T') := by
                rw [List.filter_append]
                have : ([qt].filter (inWindow T')) = [] := by
                  simp only [List.filter, inWindow]
                  have : decide (qt ≤ T') = false := by
                    simpa using hT'
                  simp [this]
                rw [this, List.append_nil]
              rw [h4]
              exact hcap T')
          T
        calc ((pre ++ qt :: (((runLimiter (checkRateLimit rl qt qip).2
                rest).2.filter fun p => p.1 == qip).map
                Prod.snd)).filter (inWindow T)).length
            = (((pre ++ [qt]) ++ (((runLimiter (checkRateLimit rl qt qip).2
                rest).2.filter fun p => p.1 == qip).map
                Prod.snd)).filter (inWindow T)).length := by
              rw [List.append_cons]
          _ ≤ MAX_REQUESTS_PER_MINUTE := hgoal

theorem dispatch_rateLimiter (u : Upstream) (s : ServerState) (q : Req) :
    (dispatch u s q).2.rateLimiter =
      (checkRateLimit s.rateLimiter q.now q.ip).2 := by
  cases q with
  | single ip id now => exact handlePrice_rateLimiter u s now ip id
  | bulk ip coinIds now => exact handlePricesList_rateLimiter u s now ip coinIds

theorem dispatch_localReject_iff (u : Upstream) (s : ServerState) (q : Req) :
    (dispatch u s q).1 = localRejectResp ↔
      (checkRateLimit s.rateLimiter q.now q.ip).1 = false := by
  cases q with
  | single ip id now => exact handlePrice_localReject_iff u s now ip id
  | bulk ip coinIds now =>
    exact handlePricesList_localReject_iff u s now ip coinIds

theorem runServer_runLimiter (u : Upstream) (s : ServerState)
    (reqs : List Req) :
    (runServer u s reqs).2 =
      (runLimiter s.rateLimiter (reqs.map fun q => (q.ip, q.now))).2 := by
  induction reqs generalizing s with
  | nil => rfl
  | cons q rest ih =>
    simp only [runServer, runLimiter, List.map_cons]
    have hrate := dispatch_rateLimiter u s q
    have hiff := dispatch_localReject_iff u s q
    have htail := ih (dispatch u s q).2
    rw [hrate] at htail
    cases hflag : (checkRateLimit s.rateLimiter q.now q.ip).1 with
    | false =>
      rw [if_pos (hiff.2 hflag), if_neg (by simp), htail]
    | true =>
      rw [if_neg (fun hc => by rw [hiff.1 hc] at hflag; cases hflag),
        if_pos rfl, htail]

theorem filter_pair_length (l : List (String × Nat)) (ip : String)
    (T : Nat) :
    (l.filter fun p => p.1 == ip && inWindow T p.2).length =
      (((l.filter fun p => p.1 == ip).map Prod.snd).filter
        (inWindow T)).length := by
  induction l with
  | nil => rfl
  | cons p rest ih =>
    cases hip : p.1 == ip with
    | false => simp [List.filter_cons, hip, ih]
    | true =>
      cases hw : inWindow T p.2 with
      | false => simp [List.filter_cons, hip, hw, ih]
      | true => simp [List.filter_cons, hip, hw, ih]

/-- C10: both endpoints drive the one shared per-client rate window — each
request, single or bulk, updates the limiter by exactly one
`checkRateLimit` call on the client's key, independent of how many
identifiers a bulk request carries; consequently along any trace of
requests with nondecreasing times, the number of admitted requests from
one client (both endpoints combined) inside any trailing one-minute
window is at most the single limit of 50. -/
theorem c10_shared_rate_window (u : Upstream) (s : ServerState) :
    (∀ now ip id coinIds,
      (handlePrice u s now ip id).2.rateLimiter =
        (checkRateLimit s.rateLimiter now ip).2 ∧
      (handlePricesList u s now ip coinIds).2.1.rateLimiter =
        (checkRateLimit s.rateLimiter now ip).2)
    ∧ (∀ reqs : List Req,
        timesMono 0 (reqs.map fun q => (q.ip, q.now)) →
        ∀ ip T, ((runServer u s reqs).2.filter fun p =>
            p.1 == ip && inWindow T p.2).length
          ≤ MAX_REQUESTS_PER_MINUTE) := by
  constructor
  · intro now ip id coinIds
    exact ⟨handlePrice_rateLimiter u s now ip id,
      handlePricesList_rateLimiter u s now ip coinIds⟩
  · intro reqs hmono ip T
    rw [runServer_runLimiter, filter_pair_length]
    have h := runLimiter_cap_aux (reqs.map fun q => (q.ip, q.now))
      s.rateLimiter [] 0 ip hmono
      (fun t ht => absurd ht (List.not_mem_nil t))
      (fun x => Nat.zero_le _)
      (fun T' => Nat.zero_le _)
      T
    simpa using h

/-- Witness for C10 at a concrete trace: one single and one bulk request
from the same client, admitted count within the trailing window bounded
by the limit. -/
theorem c10_shared_rate_window_witness :
    timesMono 0 ([Req.single "a" "btc" 1000,
      Req.bulk "a" ["btc"] 2000].map fun q => (q.ip, q.now)) ∧
    ((runServer uGood ⟨[], []⟩ [Req.single "a" "btc" 1000,
      Req.bulk "a" ["btc"] 2000]).2.filter fun p =>
        p.1 == "a" && inWindow 2000 p.2).length
      ≤ MAX_REQUESTS_PER_MINUTE := by
  constructor
  · exact ⟨by decide, by decide, trivial⟩
  · exact (c10_shared_rate_window uGood ⟨[], []⟩).2
      [Req.single "a" "btc" 1000, Req.bulk "a" ["btc"] 2000]
      ⟨by decide, by decide, trivial⟩ "a" 2000
